import Mathlib

/-!
Verification of the streaming translation client of the `lai` repository.

The definitions below are a shallow embedding of the Go code in
`app/app.go` (and the earlier revisions shipped alongside it).  Effectful
Go code is modelled by explicit data: the sequence of outcomes that
`json.Decoder.Decode` would produce is a `List DecodeResult`, HTTP
outcomes are an inductive, and every UI update of the result binding
(`a.result.Set`, `a.resultText.SetText`) is recorded in the `sinkCalls`
trace of the returned `TranslationResult`.
-/

namespace Lai

/-- `OllamaRequest` from app.go:43 — `{"model", "prompt", "stream"}`. -/
structure OllamaRequest where
  model : String
  prompt : String
  stream : Bool
deriving Repr, DecidableEq

/-- `OllamaResponse` from app.go:49 — one decoded NDJSON frame
`{"response": string, "done": bool}`. -/
structure OllamaResponse where
  response : String
  done : Bool
deriving Repr, DecidableEq

/-- One outcome of a call to `decoder.Decode` (app.go:312).  A successful
decode yields a frame; a failed one yields the error message string.  Go's
`json.Decoder` reports the end of the stream as an error whose `Error()`
text is `"EOF"`, which is exactly what the code string-matches on; a
deadline that fires during the read surfaces as an error whose text is
`"context deadline exceeded"`. -/
inductive DecodeResult where
  | ok (r : OllamaResponse)
  | error (msg : String)
deriving Repr, DecidableEq

/-- Terminal completion state of one translation request. -/
inductive CompletionState where
  | done
  | failed (detail : String)
deriving Repr, DecidableEq

/-- The observable outcome of one streaming request: the final accumulated
text, the terminal state, and the successive cumulative strings handed to
the result sink (`a.result.Set` at app.go:324), in call order. -/
structure TranslationResult where
  text : String
  state : CompletionState
  sinkCalls : List String
deriving Repr, DecidableEq

/-- The decode loop of `streamTranslateWithOllama` (app.go:310-329):
decode a frame; on error break if the message is `"EOF"` else fail with a
decode detail; otherwise append the fragment to the accumulator, push the
cumulative string to the sink, and stop when the frame's `Done` is true.
An exhausted decoder behaves like `"EOF"` (Go's decoder keeps returning
`io.EOF` once input is spent). -/
def streamLoop : String → List String → List DecodeResult → TranslationResult
  | acc, sink, [] =>
      { text := acc, state := .done, sinkCalls := sink }
  | acc, sink, .error msg :: _ =>
      if msg = "EOF" then { text := acc, state := .done, sinkCalls := sink }
      else { text := acc, state := .failed ("Failed to decode response: " ++ msg),
             sinkCalls := sink }
  | acc, sink, .ok r :: rest =>
      if r.done then
        { text := acc ++ r.response, state := .done,
          sinkCalls := sink ++ [acc ++ r.response] }
      else streamLoop (acc ++ r.response) (sink ++ [acc ++ r.response]) rest

/-- What the HTTP exchange of one request can yield: a transport error
from `client.Do`, or a response with a status code and a body (modelled
as the sequence of decoder outcomes it produces). -/
inductive HttpOutcome where
  | transportError (msg : String)
  | response (statusCode : Nat) (body : List DecodeResult)
deriving Repr, DecidableEq

/-- `streamTranslateWithOllama` (app.go:251-330) after the request has
been issued: a transport error fails with the transport detail; a status
other than 200 (`http.StatusOK`, app.go:301) fails carrying the status
code and never reaches the decode loop; otherwise the decode loop runs
with an empty accumulator and an empty sink trace. -/
def streamTranslateWithOllama : HttpOutcome → TranslationResult
  | .transportError msg =>
      { text := "", state := .failed ("Failed to make request to Ollama: " ++ msg),
        sinkCalls := [] }
  | .response status body =>
      if status ≠ 200 then
        { text := "", state := .failed ("Ollama returned status " ++ toString status),
          sinkCalls := [] }
      else streamLoop "" [] body

/-- The translation prompt wrapped around the source text
(part_000:255; app.go:268 substitutes the source text into the embedded
template the same way). -/
def mkPrompt (text : String) : String :=
  "Translate the following text to English. Only provide the English translation, no explanations or additional text:\n\n" ++ text

/-- Request construction (app.go:270-274): `{model, prompt, stream:true}`. -/
def buildRequest (modelName text : String) : OllamaRequest :=
  { model := modelName, prompt := mkPrompt text, stream := true }

/-- The whole `translate` operation of the spec: build the request, let the
server answer it, and run the streaming client on the outcome.  The server
is modelled as a function from the issued request to the HTTP outcome. -/
def translate (modelName sourceText : String)
    (server : OllamaRequest → HttpOutcome) : TranslationResult :=
  streamTranslateWithOllama (server (buildRequest modelName sourceText))

/-- What an entry path does before (possibly) invoking the client: either
it stops with a status message and issues no HTTP request, or it hands the
text to `streamTranslateWithOllama` (one HTTP request). -/
inductive EntryAction where
  | noRequest (status : String)
  | request (text : String)
deriving Repr, DecidableEq

/-- `translateInputText` (app.go:183-192), success path of `input.Get`:
the text is passed to the client with no emptiness check. -/
def translateInputText (inputText : String) : EntryAction :=
  EntryAction.request inputText

/-- `translateClipboardText` (app.go:194-211), success path of
`clipboard.ReadAll`: empty clipboard text stops before any network call. -/
def translateClipboardText (clipText : String) : EntryAction :=
  if clipText = "" then EntryAction.noRequest "Clipboard is empty."
  else EntryAction.request clipText

/-- `translateSelectedText` (part_000:176-192), success path of
`getSelectedTextWithCopy`: empty selection stops before any network call. -/
def translateSelectedText (selectedText : String) : EntryAction :=
  if selectedText = "" then EntryAction.noRequest "No text selected."
  else EntryAction.request selectedText

/-- Observable outcome of `getSelectedTextWithCopy`: the clipboard contents
after each mutation in order, the final clipboard content, and the text the
function returns. -/
structure CopyOutcome where
  clipTrace : List String
  finalClip : String
  text : String
deriving Repr, DecidableEq

/-- `getSelectedTextWithCopy` (app.go:213-246) on its success path.
`clip0` is the clipboard before the call and `selection` is what the
simulated Cmd+C keystroke places on the clipboard.  The code reads the
original clipboard, writes `""`, runs the keystroke, reads the copied
text back, and restores the original content only when it was non-empty. -/
def getSelectedTextWithCopy (clip0 : String) (selection : String) : CopyOutcome :=
  let originalClip := clip0
  let afterClear := ""
  let afterCopy := selection
  let text := afterCopy
  if originalClip ≠ "" then
    { clipTrace := [afterClear, afterCopy, originalClip],
      finalClip := originalClip, text := text }
  else
    { clipTrace := [afterClear, afterCopy], finalClip := afterCopy, text := text }

/-- Go's `unicode.IsSpace`, i.e. the Unicode White_Space property, which is
what `strings.TrimSpace` trims. -/
def goIsSpace (c : Char) : Bool :=
  decide ((9 ≤ c.toNat ∧ c.toNat ≤ 13) ∨ c.toNat = 32 ∨ c.toNat = 0x85 ∨
    c.toNat = 0xA0 ∨ c.toNat = 0x1680 ∨
    (0x2000 ≤ c.toNat ∧ c.toNat ≤ 0x200A) ∨ c.toNat = 0x2028 ∨
    c.toNat = 0x2029 ∨ c.toNat = 0x202F ∨ c.toNat = 0x205F ∨ c.toNat = 0x3000)

/-- `strings.TrimSpace`: drop White_Space characters from both ends. -/
def trimSpace (s : String) : String :=
  String.mk (((s.data.dropWhile goIsSpace).reverse.dropWhile goIsSpace).reverse)

/-- One decode outcome for the non-streaming response body. -/
inductive SingleDecode where
  | ok (r : OllamaResponse)
  | error (msg : String)
deriving Repr, DecidableEq

/-- HTTP outcome for the non-streaming call. -/
inductive HttpOutcomeSingle where
  | transportError (msg : String)
  | response (statusCode : Nat) (body : SingleDecode)
deriving Repr, DecidableEq

/-- `translateWithOllama` (app_test.go:275-317): non-streaming request;
on a 200 response with a decodable single object it returns
`strings.TrimSpace` of the `response` field. -/
def translateWithOllama : HttpOutcomeSingle → Except String String
  | .transportError msg => .error ("failed to make request to Ollama: " ++ msg)
  | .response status body =>
      if status ≠ 200 then .error ("Ollama returned status " ++ toString status)
      else
        match body with
        | .error msg => .error ("failed to decode response: " ++ msg)
        | .ok r => .ok (trimSpace r.response)

/-- The successive cumulative accumulator values obtained by appending each
frame's fragment, starting from `acc`. -/
def cumTexts (acc : String) : List OllamaResponse → List String
  | [] => []
  | g :: gs => (acc ++ g.response) :: cumTexts (acc ++ g.response) gs

/-- `b` extends `a` by some (possibly empty) appended suffix. -/
def StrExtends (a b : String) : Prop := ∃ t, b = a ++ t

/-! ### Helper lemmas about `String.join` -/

lemma foldl_string_append (l : List String) (a b : String) :
    l.foldl (· ++ ·) (a ++ b) = a ++ l.foldl (· ++ ·) b := by
  induction l generalizing b with
  | nil => rfl
  | cons c l ih => simp only [List.foldl_cons, String.append_assoc, ih]

lemma join_cons (s : String) (l : List String) :
    String.join (s :: l) = s ++ String.join l := by
  have h := foldl_string_append l s ""
  simp only [String.append_empty] at h
  simpa [String.join, String.empty_append] using h

lemma join_nil : String.join [] = "" := rfl

lemma join_append (l₁ l₂ : List String) :
    String.join (l₁ ++ l₂) = String.join l₁ ++ String.join l₂ := by
  induction l₁ with
  | nil => simp [join_nil, String.empty_append]
  | cons s l ih => simp [join_cons, ih, String.append_assoc]

/-! ### Helper lemmas about the streaming loop -/

lemma streamLoop_ok_cons (g : OllamaResponse) (hg : g.done = false)
    (acc : String) (sink : List String) (rest : List DecodeResult) :
    streamLoop acc sink (DecodeResult.ok g :: rest) =
      streamLoop (acc ++ g.response) (sink ++ [acc ++ g.response]) rest := by
  simp [streamLoop, hg]

lemma streamLoop_done_cons (g : OllamaResponse) (hg : g.done = true)
    (acc : String) (sink : List String) (rest : List DecodeResult) :
    streamLoop acc sink (DecodeResult.ok g :: rest) =
      { text := acc ++ g.response, state := .done,
        sinkCalls := sink ++ [acc ++ g.response] } := by
  simp [streamLoop, hg]

lemma streamLoop_eof_cons (acc : String) (sink : List String)
    (rest : List DecodeResult) :
    streamLoop acc sink (DecodeResult.error "EOF" :: rest) =
      { text := acc, state := .done, sinkCalls := sink } := by
  simp [streamLoop]

lemma streamLoop_error_cons (msg : String) (hmsg : msg ≠ "EOF")
    (acc : String) (sink : List String) (rest : List DecodeResult) :
    streamLoop acc sink (DecodeResult.error msg :: rest) =
      { text := acc, state := .failed ("Failed to decode response: " ++ msg),
        sinkCalls := sink } := by
  simp [streamLoop, hmsg]

/-- Running the loop over a block of non-terminal frames appends all their
fragments to the accumulator and pushes the cumulative texts to the sink. -/
lemma streamLoop_ok_list (good : List OllamaResponse)
    (hgood : ∀ r ∈ good, r.done = false) :
    ∀ (acc : String) (sink : List String) (rest : List DecodeResult),
    streamLoop acc sink (good.map DecodeResult.ok ++ rest) =
      streamLoop (acc ++ String.join (good.map (·.response)))
        (sink ++ cumTexts acc good) rest := by
  induction good with
  | nil =>
    intro acc sink rest
    simp [cumTexts, join_nil, String.append_empty]
  | cons g gs ih =>
    intro acc sink rest
    have hg : g.done = false := hgood g (List.mem_cons_self g gs)
    have hgs : ∀ r ∈ gs, r.done = false := fun r hr =>
      hgood r (List.mem_cons_of_mem g hr)
    have hA : (acc ++ g.response) ++ String.join (gs.map (·.response)) =
        acc ++ String.join ((g :: gs).map (·.response)) := by
      rw [List.map_cons, join_cons, String.append_assoc]
    have hB : (sink ++ [acc ++ g.response]) ++ cumTexts (acc ++ g.response) gs =
        sink ++ cumTexts acc (g :: gs) := by
      simp [cumTexts, List.append_assoc]
    rw [List.map_cons, List.cons_append, streamLoop_ok_cons g hg, ih hgs, hA, hB]

/-- Aborting behaviour: non-terminal frames followed by a decode error that
is not `"EOF"` yields a failed result holding the text accumulated so far,
with the sink having seen only the frames before the error, regardless of
what follows the error on the wire. -/
lemma streamTranslate_abort (good : List OllamaResponse)
    (hgood : ∀ r ∈ good, r.done = false) (msg : String) (hmsg : msg ≠ "EOF")
    (rest : List DecodeResult) :
    streamTranslateWithOllama
        (.response 200 (good.map DecodeResult.ok ++ DecodeResult.error msg :: rest)) =
      { text := String.join (good.map (·.response)),
        state := .failed ("Failed to decode response: " ++ msg),
        sinkCalls := cumTexts "" good } := by
  show streamLoop "" [] _ = _
  rw [streamLoop_ok_list good hgood, streamLoop_error_cons msg hmsg]
  simp [String.empty_append]

/-! ### Characterizing the cumulative sink texts -/

lemma cumTexts_append (l₁ l₂ : List OllamaResponse) :
    ∀ acc, cumTexts acc (l₁ ++ l₂) =
      cumTexts acc l₁ ++ cumTexts (acc ++ String.join (l₁.map (·.response))) l₂ := by
  induction l₁ with
  | nil => intro acc; simp [cumTexts, join_nil, String.append_empty]
  | cons g gs ih =>
    intro acc
    simp only [List.cons_append, cumTexts, List.map_cons, join_cons, List.append_eq]
    rw [ih (acc ++ g.response), String.append_assoc]

lemma cumTexts_eq_range_map (gs : List OllamaResponse) :
    ∀ acc, cumTexts acc gs = (List.range gs.length).map
      (fun k => acc ++ String.join ((gs.take (k + 1)).map (·.response))) := by
  induction gs with
  | nil => intro acc; simp [cumTexts]
  | cons g gs ih =>
    intro acc
    have hsucc : ∀ k : Nat,
        (acc ++ g.response) ++ String.join ((gs.take (k + 1)).map (·.response)) =
          acc ++ String.join (((g :: gs).take (k + 1 + 1)).map (·.response)) := by
      intro k
      rw [List.take_succ_cons, List.map_cons, join_cons, String.append_assoc]
    rw [List.length_cons, List.range_succ_eq_map, List.map_cons, List.map_map,
      show cumTexts acc (g :: gs) =
        (acc ++ g.response) :: cumTexts (acc ++ g.response) gs from rfl]
    congr 1
    rw [ih (acc ++ g.response)]
    apply List.map_congr_left
    intro k _
    simp only [Function.comp_apply]
    exact hsucc k

/-! ### Sink monotonicity invariant -/

/-- Invariant of the decode loop: if the sink trace so far is a chain of
append-extensions whose last entry (if any) is the current accumulator,
then the final sink trace is such a chain as well, and the final text is
its last entry. -/
lemma streamLoop_sink_invariant (body : List DecodeResult) :
    ∀ (acc : String) (sink : List String),
      List.Chain' StrExtends sink → sink.getLastD "" = acc →
      List.Chain' StrExtends (streamLoop acc sink body).sinkCalls ∧
        (streamLoop acc sink body).sinkCalls.getLastD "" =
          (streamLoop acc sink body).text := by
  induction body with
  | nil =>
    intro acc sink hc hl
    exact ⟨hc, hl⟩
  | cons d rest ih =>
    intro acc sink hc hl
    have hconcat : ∀ x : String, List.Chain' StrExtends (sink ++ [acc ++ x]) := by
      intro x
      rw [List.chain'_append]
      refine ⟨hc, List.chain'_singleton _, ?_⟩
      intro y hy z hz
      have hsy : sink.getLast? = some y := Option.mem_def.mp hy
      have hza : z = acc ++ x := by
        have : ([acc ++ x].head? = some z) := Option.mem_def.mp hz
        simpa using this.symm
      have hya : y = acc := by
        rw [List.getLastD_eq_getLast?, hsy, Option.getD_some] at hl
        exact hl
      exact ⟨x, by rw [hza, hya]⟩
    cases d with
    | error msg =>
      by_cases hm : msg = "EOF"
      · subst hm
        rw [streamLoop_eof_cons]
        exact ⟨hc, hl⟩
      · rw [streamLoop_error_cons msg hm]
        exact ⟨hc, hl⟩
    | ok r =>
      by_cases hd : r.done
      · rw [streamLoop_done_cons r hd]
        refine ⟨hconcat r.response, ?_⟩
        simp [List.getLastD_concat]
      · rw [streamLoop_ok_cons r (by simpa using hd)]
        refine ih (acc ++ r.response) (sink ++ [acc ++ r.response])
          (hconcat r.response) ?_
        simp [List.getLastD_concat]

/-! ### Whitespace trimming -/

lemma head?_dropWhile_false {α : Type} (p : α → Bool) (l : List α) (c : α)
    (h : (l.dropWhile p).head? = some c) : p c = false := by
  have hn := List.head?_dropWhile_not p l
  rw [h] at hn
  exact hn

/-- `trimSpace` decomposes its input into all-space margins around an
output that neither starts nor ends with a space character. -/
lemma trimSpace_decomposition (s : String) :
    ∃ pre post : List Char,
      (∀ c ∈ pre, goIsSpace c = true) ∧ (∀ c ∈ post, goIsSpace c = true) ∧
      s.data = pre ++ (trimSpace s).data ++ post ∧
      (∀ c, (trimSpace s).data.head? = some c → goIsSpace c = false) ∧
      (∀ c, (trimSpace s).data.getLast? = some c → goIsSpace c = false) := by
  set p := goIsSpace with hp
  set l := s.data with hlsd
  set m := l.dropWhile p with hm
  have htdata : (trimSpace s).data = (m.reverse.dropWhile p).reverse := rfl
  refine ⟨l.takeWhile p, (m.reverse.takeWhile p).reverse, ?_, ?_, ?_, ?_, ?_⟩
  · intro c hc
    exact List.mem_takeWhile_imp hc
  · intro c hc
    rw [List.mem_reverse] at hc
    exact List.mem_takeWhile_imp hc
  · have hsplit : l.takeWhile p ++ m = l := List.takeWhile_append_dropWhile p l
    have hmsplit : m = (trimSpace s).data ++ (m.reverse.takeWhile p).reverse := by
      rw [htdata, ← List.reverse_append, List.takeWhile_append_dropWhile,
        List.reverse_reverse]
    rw [List.append_assoc, ← hmsplit, hsplit]
  · intro c hc
    have hmsplit : m = (trimSpace s).data ++ (m.reverse.takeWhile p).reverse := by
      rw [htdata, ← List.reverse_append, List.takeWhile_append_dropWhile,
        List.reverse_reverse]
    cases ht : (trimSpace s).data with
    | nil => rw [ht] at hc; cases hc
    | cons a tl =>
      rw [ht] at hc
      have hca : c = a := by simpa using hc.symm
      have hmh : m.head? = some a := by
        rw [hmsplit, ht, List.cons_append, List.head?_cons]
      exact hca ▸ head?_dropWhile_false p l a hmh
  · intro c hc
    have hrev : (trimSpace s).data.reverse = m.reverse.dropWhile p := by
      rw [htdata, List.reverse_reverse]
    have hh : (m.reverse.dropWhile p).head? = some c := by
      rw [← hrev, List.head?_reverse]
      exact hc
    exact head?_dropWhile_false p m.reverse c hh

/-! ### Claim theorems -/

/-- C1: For every well-formed NDJSON stream whose last frame has `done:true`
(and all earlier frames non-terminal), the streaming translate operation
finishes in state `done`, its final accumulated text equals the exact
concatenation of all frames' `response` fragments in arrival order, and the
result sink observes exactly the increasing prefixes of that concatenation
in the same order. -/
theorem stream_accumulates_concatenation
    (good : List OllamaResponse) (lastF : OllamaResponse)
    (hgood : ∀ r ∈ good, r.done = false) (hlast : lastF.done = true) :
    (streamTranslateWithOllama
        (.response 200 ((good ++ [lastF]).map DecodeResult.ok))).state =
      CompletionState.done ∧
    (streamTranslateWithOllama
        (.response 200 ((good ++ [lastF]).map DecodeResult.ok))).text =
      String.join ((good ++ [lastF]).map (·.response)) ∧
    (streamTranslateWithOllama
        (.response 200 ((good ++ [lastF]).map DecodeResult.ok))).sinkCalls =
      (List.range (good ++ [lastF]).length).map
        (fun k => String.join (((good ++ [lastF]).take (k + 1)).map (·.response))) := by
  have key : streamTranslateWithOllama
      (.response 200 ((good ++ [lastF]).map DecodeResult.ok)) =
      { text := String.join ((good ++ [lastF]).map (·.response)),
        state := CompletionState.done,
        sinkCalls := cumTexts "" (good ++ [lastF]) } := by
    show streamLoop "" [] _ = _
    rw [List.map_append, List.map_cons, List.map_nil,
      streamLoop_ok_list good hgood "" [] [DecodeResult.ok lastF],
      streamLoop_done_cons lastF hlast]
    simp [String.empty_append, List.map_append, join_append, join_cons, join_nil,
      String.append_empty, cumTexts_append, cumTexts]
  refine ⟨by rw [key], by rw [key], ?_⟩
  rw [key]
  show cumTexts "" (good ++ [lastF]) = _
  rw [cumTexts_eq_range_map (good ++ [lastF]) ""]
  simp only [String.empty_append]

/-- C1 witness: the spec scenario stream with a single terminal frame. -/
theorem stream_accumulates_concatenation_witness :
    (∀ r ∈ ([] : List OllamaResponse), r.done = false) ∧
    ({ response := "Hi there", done := true } : OllamaResponse).done = true ∧
    ((streamTranslateWithOllama
        (.response 200 ((([] : List OllamaResponse) ++
          [({ response := "Hi there", done := true } : OllamaResponse)]).map DecodeResult.ok))).state =
      CompletionState.done ∧
    (streamTranslateWithOllama
        (.response 200 ((([] : List OllamaResponse) ++
          [({ response := "Hi there", done := true } : OllamaResponse)]).map DecodeResult.ok))).text =
      String.join ((([] : List OllamaResponse) ++
        [({ response := "Hi there", done := true } : OllamaResponse)]).map (·.response)) ∧
    (streamTranslateWithOllama
        (.response 200 ((([] : List OllamaResponse) ++
          [({ response := "Hi there", done := true } : OllamaResponse)]).map DecodeResult.ok))).sinkCalls =
      (List.range (([] : List OllamaResponse) ++
          [({ response := "Hi there", done := true } : OllamaResponse)]).length).map
        (fun k => String.join (((([] : List OllamaResponse) ++
          [({ response := "Hi there", done := true } : OllamaResponse)]).take (k + 1)).map (·.response)))) :=
  ⟨by decide, rfl,
    stream_accumulates_concatenation [] { response := "Hi there", done := true }
      (by decide) rfl⟩

/-- C2: for every HTTP response whose status is not 2xx, the streaming
translate operation fails with a detail carrying that status code, and the
sink receives zero callbacks (the decode loop is never entered). -/
theorem non2xx_fails_without_sink (status : Nat) (body : List DecodeResult)
    (h : ¬ (200 ≤ status ∧ status ≤ 299)) :
    streamTranslateWithOllama (.response status body) =
      { text := "", state := .failed ("Ollama returned status " ++ toString status),
        sinkCalls := [] } := by
  have h200 : status ≠ 200 := by
    intro h0
    exact h ⟨h0 ▸ Nat.le_refl 200, h0 ▸ (by norm_num)⟩
  simp [streamTranslateWithOllama, h200]

/-- C2 witness: the spec scenario of an immediate HTTP 500. -/
theorem non2xx_fails_without_sink_witness :
    ¬ (200 ≤ 500 ∧ 500 ≤ 299) ∧
    streamTranslateWithOllama (.response 500 []) =
      { text := "", state := .failed ("Ollama returned status " ++ toString 500),
        sinkCalls := [] } :=
  ⟨by decide, non2xx_fails_without_sink 500 [] (by decide)⟩

/-- C3: a malformed (non-JSON-decodable) frame mid-stream aborts the whole
request at that frame: the result is failed with a decode detail, the text
and sink contain only fragments from before the malformed frame, and the
outcome does not depend on anything after the malformed frame (the loop
never skips it and continues). -/
theorem malformed_frame_aborts
    (good : List OllamaResponse) (hgood : ∀ r ∈ good, r.done = false)
    (msg : String) (hmsg : msg ≠ "EOF") (rest rest2 : List DecodeResult) :
    (streamTranslateWithOllama (.response 200
        (good.map DecodeResult.ok ++ DecodeResult.error msg :: rest))).state =
      CompletionState.failed ("Failed to decode response: " ++ msg) ∧
    (streamTranslateWithOllama (.response 200
        (good.map DecodeResult.ok ++ DecodeResult.error msg :: rest))).text =
      String.join (good.map (·.response)) ∧
    (streamTranslateWithOllama (.response 200
        (good.map DecodeResult.ok ++ DecodeResult.error msg :: rest))).sinkCalls =
      cumTexts "" good ∧
    streamTranslateWithOllama (.response 200
        (good.map DecodeResult.ok ++ DecodeResult.error msg :: rest)) =
      streamTranslateWithOllama (.response 200
        (good.map DecodeResult.ok ++ DecodeResult.error msg :: rest2)) := by
  rw [streamTranslate_abort good hgood msg hmsg rest,
    streamTranslate_abort good hgood msg hmsg rest2]
  exact ⟨rfl, rfl, rfl, rfl⟩

/-- C3 witness: one good frame, then a malformed frame, with and without
trailing data after the malformed frame. -/
theorem malformed_frame_aborts_witness :
    (∀ r ∈ [({ response := "Hi", done := false } : OllamaResponse)],
        r.done = false) ∧
    ("invalid character" : String) ≠ "EOF" ∧
    ((streamTranslateWithOllama (.response 200
        ([({ response := "Hi", done := false } : OllamaResponse)].map DecodeResult.ok ++
          DecodeResult.error "invalid character" :: []))).state =
      CompletionState.failed ("Failed to decode response: " ++ "invalid character") ∧
    (streamTranslateWithOllama (.response 200
        ([({ response := "Hi", done := false } : OllamaResponse)].map DecodeResult.ok ++
          DecodeResult.error "invalid character" :: []))).text =
      String.join ([({ response := "Hi", done := false } : OllamaResponse)].map (·.response)) ∧
    (streamTranslateWithOllama (.response 200
        ([({ response := "Hi", done := false } : OllamaResponse)].map DecodeResult.ok ++
          DecodeResult.error "invalid character" :: []))).sinkCalls =
      cumTexts "" [({ response := "Hi", done := false } : OllamaResponse)] ∧
    streamTranslateWithOllama (.response 200
        ([({ response := "Hi", done := false } : OllamaResponse)].map DecodeResult.ok ++
          DecodeResult.error "invalid character" :: [])) =
      streamTranslateWithOllama (.response 200
        ([({ response := "Hi", done := false } : OllamaResponse)].map DecodeResult.ok ++
          DecodeResult.error "invalid character" ::
            [DecodeResult.ok { response := "X", done := true }]))) :=
  ⟨by decide, by decide,
    malformed_frame_aborts [{ response := "Hi", done := false }] (by decide)
      "invalid character" (by decide) []
      [DecodeResult.ok { response := "X", done := true }]⟩

/-- C5: when the 30-second overall deadline elapses before a terminal frame
is decoded, the blocked body read fails with Go's context error
`"context deadline exceeded"` (which is not the `"EOF"` sentinel), so the
request fails carrying that timeout detail, and the sink has received only
the callbacks for frames decoded before the deadline fired — none after. -/
theorem deadline_fails_without_further_sink
    (good : List OllamaResponse) (hgood : ∀ r ∈ good, r.done = false)
    (rest : List DecodeResult) :
    (streamTranslateWithOllama (.response 200 (good.map DecodeResult.ok ++
        DecodeResult.error "context deadline exceeded" :: rest))).state =
      CompletionState.failed
        ("Failed to decode response: " ++ "context deadline exceeded") ∧
    (streamTranslateWithOllama (.response 200 (good.map DecodeResult.ok ++
        DecodeResult.error "context deadline exceeded" :: rest))).sinkCalls =
      cumTexts "" good ∧
    (streamTranslateWithOllama (.response 200 (good.map DecodeResult.ok ++
        DecodeResult.error "context deadline exceeded" :: rest))).text =
      String.join (good.map (·.response)) := by
  rw [streamTranslate_abort good hgood "context deadline exceeded" (by decide) rest]
  exact ⟨rfl, rfl, rfl⟩

/-- C5 witness: the deadline fires before any frame arrives. -/
theorem deadline_fails_without_further_sink_witness :
    (∀ r ∈ ([] : List OllamaResponse), r.done = false) ∧
    ((streamTranslateWithOllama (.response 200
        (([] : List OllamaResponse).map DecodeResult.ok ++
          DecodeResult.error "context deadline exceeded" :: []))).state =
      CompletionState.failed
        ("Failed to decode response: " ++ "context deadline exceeded") ∧
    (streamTranslateWithOllama (.response 200
        (([] : List OllamaResponse).map DecodeResult.ok ++
          DecodeResult.error "context deadline exceeded" :: []))).sinkCalls =
      cumTexts "" ([] : List OllamaResponse) ∧
    (streamTranslateWithOllama (.response 200
        (([] : List OllamaResponse).map DecodeResult.ok ++
          DecodeResult.error "context deadline exceeded" :: []))).text =
      String.join (([] : List OllamaResponse).map (·.response))) :=
  ⟨by decide, deadline_fails_without_further_sink [] (by decide) []⟩

/-- C6: a stream that ends (EOF) without any terminal frame — including the
zero-frame stream — is treated as normal completion: state `done` with the
text accumulated so far, not a failure.  The second conjunct covers the
exhausted decoder, which behaves identically to the `"EOF"` error. -/
theorem eof_without_terminal_is_done
    (good : List OllamaResponse) (hgood : ∀ r ∈ good, r.done = false) :
    streamTranslateWithOllama (.response 200
        (good.map DecodeResult.ok ++ [DecodeResult.error "EOF"])) =
      { text := String.join (good.map (·.response)), state := CompletionState.done,
        sinkCalls := cumTexts "" good } ∧
    streamTranslateWithOllama (.response 200 (good.map DecodeResult.ok)) =
      { text := String.join (good.map (·.response)), state := CompletionState.done,
        sinkCalls := cumTexts "" good } := by
  constructor
  · show streamLoop "" [] _ = _
    rw [streamLoop_ok_list good hgood, streamLoop_eof_cons]
    simp [String.empty_append]
  · show streamLoop "" [] _ = _
    rw [← List.append_nil (good.map DecodeResult.ok), streamLoop_ok_list good hgood]
    simp [streamLoop, String.empty_append]

/-- C6 witness: the zero-frame stream completes as `done` with empty text. -/
theorem eof_without_terminal_is_done_witness :
    (∀ r ∈ ([] : List OllamaResponse), r.done = false) ∧
    (streamTranslateWithOllama (.response 200
        (([] : List OllamaResponse).map DecodeResult.ok ++ [DecodeResult.error "EOF"])) =
      { text := String.join (([] : List OllamaResponse).map (·.response)),
        state := CompletionState.done,
        sinkCalls := cumTexts "" ([] : List OllamaResponse) } ∧
    streamTranslateWithOllama (.response 200
        (([] : List OllamaResponse).map DecodeResult.ok)) =
      { text := String.join (([] : List OllamaResponse).map (·.response)),
        state := CompletionState.done,
        sinkCalls := cumTexts "" ([] : List OllamaResponse) }) :=
  ⟨by decide, eof_without_terminal_is_done [] (by decide)⟩

/-- C7: across any HTTP outcome, the sink trace of one request is a chain
of append-extensions (each callback only appends to the previous text, so
the accumulated text is monotonically non-decreasing in length), and the
final text equals the last value the sink observed (default empty), i.e.
the accumulator is never mutated after the terminal state is reached. -/
theorem accumulator_monotone_frozen (out : HttpOutcome) :
    List.Chain' StrExtends (streamTranslateWithOllama out).sinkCalls ∧
    List.Chain' (fun a b : String => a.length ≤ b.length)
      (streamTranslateWithOllama out).sinkCalls ∧
    (streamTranslateWithOllama out).sinkCalls.getLastD "" =
      (streamTranslateWithOllama out).text := by
  have main : List.Chain' StrExtends (streamTranslateWithOllama out).sinkCalls ∧
      (streamTranslateWithOllama out).sinkCalls.getLastD "" =
        (streamTranslateWithOllama out).text := by
    cases out with
    | transportError msg => exact ⟨List.chain'_nil, rfl⟩
    | response status body =>
      by_cases h : status = 200
      · subst h
        have hrun : streamTranslateWithOllama (.response 200 body) =
            streamLoop "" [] body := rfl
        rw [hrun]
        exact streamLoop_sink_invariant body "" [] List.chain'_nil rfl
      · have hrun : streamTranslateWithOllama (.response status body) =
            { text := "",
              state := .failed ("Ollama returned status " ++ toString status),
              sinkCalls := [] } := by
          simp [streamTranslateWithOllama, h]
        rw [hrun]
        exact ⟨List.chain'_nil, rfl⟩
  refine ⟨main.1, ?_, main.2⟩
  refine List.Chain'.imp ?_ main.1
  intro a b hab
  obtain ⟨t, rfl⟩ := hab
  rw [String.length_append]
  exact Nat.le_add_right _ _

/-- C8: the non-streaming translate operation on a 200 response with a
single decodable `{response, done}` object returns exactly the `response`
field trimmed of leading and trailing whitespace: the response splits as
all-space margins around the returned text, which itself neither starts
nor ends with a space character. -/
theorem nonstreaming_returns_trimmed (r : OllamaResponse) :
    translateWithOllama (.response 200 (.ok r)) = Except.ok (trimSpace r.response) ∧
    ∃ pre post : List Char,
      (∀ c ∈ pre, goIsSpace c = true) ∧ (∀ c ∈ post, goIsSpace c = true) ∧
      r.response.data = pre ++ (trimSpace r.response).data ++ post ∧
      (∀ c, (trimSpace r.response).data.head? = some c → goIsSpace c = false) ∧
      (∀ c, (trimSpace r.response).data.getLast? = some c → goIsSpace c = false) :=
  ⟨rfl, trimSpace_decomposition r.response⟩

/-- C9: the accumulated result is a deterministic function of the inputs:
two `translate` calls with identical model and source text against servers
that answer with identical streams produce byte-identical results. -/
theorem translate_deterministic (modelName sourceText : String)
    (server1 server2 : OllamaRequest → HttpOutcome)
    (h : ∀ rq, server1 rq = server2 rq) :
    translate modelName sourceText server1 =
      translate modelName sourceText server2 := by
  unfold translate
  rw [h]

/-- C9 witness: two identical mocked servers streaming the spec scenario. -/
theorem translate_deterministic_witness :
    (∀ rq : OllamaRequest,
      (fun _ : OllamaRequest => HttpOutcome.response 200
        [DecodeResult.ok { response := "Hi", done := false },
         DecodeResult.ok { response := " there", done := true }]) rq =
      (fun _ : OllamaRequest => HttpOutcome.response 200
        [DecodeResult.ok { response := "Hi", done := false },
         DecodeResult.ok { response := " there", done := true }]) rq) ∧
    translate "gemma3n:e4b" "Hola"
        (fun _ => HttpOutcome.response 200
          [DecodeResult.ok { response := "Hi", done := false },
           DecodeResult.ok { response := " there", done := true }]) =
      translate "gemma3n:e4b" "Hola"
        (fun _ => HttpOutcome.response 200
          [DecodeResult.ok { response := "Hi", done := false },
           DecodeResult.ok { response := " there", done := true }]) :=
  ⟨fun _ => rfl,
    translate_deterministic "gemma3n:e4b" "Hola" _ _ (fun _ => rfl)⟩

/-- C4 counterexample: the input-text entry path (`translateInputText`)
invokes the streaming client — issuing an HTTP request — even when the
source text is empty, so empty input is not rejected on every entry path. -/
theorem input_entry_requests_on_empty :
    translateInputText "" = EntryAction.request "" := rfl

/-- C4 amended: empty source text is rejected before any network call on
the clipboard and selected-text entry paths; the input-text entry path
performs no emptiness check and invokes the client even with empty text. -/
theorem clipboard_selected_reject_empty :
    translateClipboardText "" = EntryAction.noRequest "Clipboard is empty." ∧
    translateSelectedText "" = EntryAction.noRequest "No text selected." ∧
    translateInputText "" = EntryAction.request "" := by
  refine ⟨?_, ?_, rfl⟩ <;> decide

/-- C10: on the success path of the selected-text capture, the clipboard is
first overwritten with the empty string, the simulated copy then places the
selection on it, and the original content is restored only when it was
non-empty — otherwise the clipboard is left holding the copied selection;
the captured selection is returned either way. -/
theorem selected_copy_clipboard_effects (clip0 selection : String) :
    (getSelectedTextWithCopy clip0 selection).clipTrace.head? = some "" ∧
    (getSelectedTextWithCopy clip0 selection).clipTrace[1]? = some selection ∧
    (getSelectedTextWithCopy clip0 selection).finalClip =
      (if clip0 = "" then selection else clip0) ∧
    (getSelectedTextWithCopy clip0 selection).text = selection := by
  by_cases h : clip0 = ""
  · simp [getSelectedTextWithCopy, h]
  · simp [getSelectedTextWithCopy, h]

end Lai
